import Mathlib

/-!
Verification development for the DreamHAL formatted-text rendering subsystem.

Part 1 embeds `src/modules/print.c`: the `kvprintf` format-string engine is
modelled as a pure function from a format string, a tagged argument list and a
default radix to the list of characters handed to the output sink (the code
never reads sink state, so the emitted character stream is sink-independent);
the bounded-buffer sink (`snprintf_func` / `vsnprintf` / `vsnrprintf`) is
modelled by folding the per-character store over that stream.

Part 2 embeds the `simple_print.c` converters (`int_to_string`,
`mantissa_to_string`, `float_to_string`, `append_string`), with the IEEE-754
single value represented by its bit fields (sign, biased exponent, mantissa).

Machine integers are modelled as `Int`/`Nat` with explicit truncation where
the C code wraps; C truncated division and remainder on signed values are
`Int.tdiv` and `Int.tmod`.
-/

namespace DreamHAL

/-- Digit table `hex2ascii_data` from print.c. -/
def hex2ascii_data : List Char := ("0123456789abcdefghijklmnopqrstuvwxyz").data

/-- Macro `hex2ascii(hex)`: index into the table. -/
def hex2ascii (d : Nat) : Char := hex2ascii_data.getD d '!'

/-- Macro `toupper(c)` from print.c. -/
def toupperC (c : Char) : Char :=
  if 97 ≤ c.toNat ∧ c.toNat ≤ 122 then Char.ofNat (c.toNat - 32) else c

/-- Value of an `Int` reinterpreted as a 32-bit unsigned quantity. -/
def u32 (i : Int) : Nat := (i % 4294967296).toNat

/-- Reinterpretation `(int)num` of a 32-bit unsigned `num` as signed. -/
def s32ofU (n : Nat) : Int := if n < 2147483648 then (n : Int) else (n : Int) - 4294967296

/-- Truncation of an `Int` to a signed `w`-bit value (C narrowing cast). -/
def strunc (w : Nat) (i : Int) : Int := ((i + 2 ^ (w - 1)) % 2 ^ w) - 2 ^ (w - 1)

/-- Digit-extraction loop of `ksprintn`, fuel-based so that it computes by
kernel reduction.  Produces the digit characters most-significant first,
exactly the order in which `kvprintf` emits them via `while (*p) PCHAR(*p--)`.
The do-while in the source always produces at least one digit. -/
def kspDigits (base : Nat) : Nat → Nat → List Char
  | 0, _ => []
  | fuel + 1, num =>
      (if num / base = 0 then [] else kspDigits base fuel (num / base)) ++ [hex2ascii (num % base)]

/-- Model of `ksprintn(nbuf, num, base, len, upper)` from print.c, as the emitted digit
string (most-significant first).  Bases 2, 8, 10, 16 extract digits (the
source uses shifts for the power-of-two bases, which agrees with division);
any other base yields the single placeholder character. -/
def ksprintn (num : Nat) (base : Nat) (upper : Bool) : List Char :=
  let raw := if base = 10 ∨ base = 16 ∨ base = 8 ∨ base = 2 then kspDigits base 33 num else ['?']
  if upper then raw.map toupperC else raw

/-- Tagged variadic argument, per §9 of the design notes: `kvprintf` fetches
`int`-sized values, `char *` strings (also used for the `%b` spec and the
`%D` byte source), and `void *` pointer values. -/
inductive Arg where
  | int (i : Int)
  | str (s : Option (List Char))
  | ptr (n : Nat)

def argInt : Arg → Int
  | .int i => i
  | .ptr n => (n : Int)
  | .str _ => 0

def argStr : Arg → Option (List Char)
  | .str s => s
  | _ => none

def argPtr : Arg → Nat
  | .ptr n => n % 4294967296
  | .int i => u32 i
  | .str _ => 0

/-- Fetch `va_arg`: pop the next argument (reading past the end of the supplied
list is a caller contract violation; the model yields a zero value there). -/
def popArg : List Arg → Arg × List Arg
  | [] => (.int 0, [])
  | a :: as => (a, as)

/-- Per-directive parse state of `kvprintf` (rebuilt at each `%`).  `acc`
records the characters consumed since the `%` inclusive, for the verbatim
re-emission in the default case; `nAcc` is the running value of the width or
precision numeral being collected. -/
structure DirSt where
  acc : List Char
  width : Int
  dwidth : Int
  padc : Char
  ladjust : Bool
  sharp : Bool
  sign : Bool
  dot : Bool
  lflag : Bool
  hflag : Bool
  cflag : Bool
  jflag : Bool
  tflag : Bool
  zflag : Bool
  upper : Bool
  nAcc : Option Int

/-- State at the start of a directive: `padc` the blank, `width = 0`, all flags
cleared, `acc` holding the `%` just consumed. -/
def initDir : DirSt :=
  ⟨['%'], 0, 0, ' ', false, false, false, false, false, false, false, false, false, false,
    false, none⟩

/-- The `handle_nosign` argument fetch: the if-else chain over the length flags,
each case reading an `int`-sized value and converting to unsigned. -/
def fetchNosign (st : DirSt) (i : Int) : Nat :=
  if st.jflag then u32 i
  else if st.tflag then u32 i
  else if st.lflag then u32 i
  else if st.zflag then u32 i
  else if st.hflag then (i % 65536).toNat
  else if st.cflag then (i % 256).toNat
  else u32 i

/-- The `handle_sign` argument fetch: signed narrowing per length flag (on SH4
`int`, `long`, `size_t`, `ptrdiff_t` are all 32 bits). -/
def fetchSign (st : DirSt) (i : Int) : Int :=
  if st.jflag then strunc 32 i
  else if st.tflag then strunc 32 i
  else if st.lflag then strunc 32 i
  else if st.zflag then strunc 32 i
  else if st.hflag then strunc 16 i
  else if st.cflag then strunc 8 i
  else strunc 32 i

/-- Name characters of a `%b` group: the source compares against 0x20 on a signed
`char`, so bytes 33..127. -/
def bNameChar (c : Char) : Bool := decide (32 < c.toNat ∧ c.toNat < 128)

/-- Scanner state inside the `%b` auxiliary spec: expecting a bit byte, or
inside a name that is being emitted, or inside a name being skipped. -/
inductive BMode where
  | bit
  | keep
  | skip

/-- The `%b` group loop of `kvprintf` (lines 476-486): for each
`(bit, name)` group, if the bit is set emit `<` or `,` then the name. -/
def emitBLoop (num : Nat) : List Char → BMode → Bool → List Char
  | [], _, _ => []
  | c :: rest, .bit, started =>
      if c = Char.ofNat 0 then []
      else if num.testBit (c.toNat - 1) then
        (if started then ',' else '<') :: emitBLoop num rest .keep true
      else emitBLoop num rest .skip started
  | c :: rest, .keep, started =>
      if bNameChar c then c :: emitBLoop num rest .keep started
      else if c = Char.ofNat 0 then []
      else if num.testBit (c.toNat - 1) then
        (if started then ',' else '<') :: emitBLoop num rest .keep true
      else emitBLoop num rest .skip started
  | c :: rest, .skip, started =>
      if bNameChar c then emitBLoop num rest .skip started
      else if c = Char.ofNat 0 then []
      else if num.testBit (c.toNat - 1) then
        (if started then ',' else '<') :: emitBLoop num rest .keep true
      else emitBLoop num rest .skip started

/-- Full `%b` decoration: the group loop output, closed with `>` when any
name was emitted (`retval != tmp` in the source). -/
def emitB (num : Nat) (q : List Char) : List Char :=
  let g := emitBLoop num q .bit false
  if g = [] then [] else g ++ ['>']

/-- The `%D` hex-dump loop: two hex digits per byte, separator between
bytes (`if (width)` after the increment). -/
def emitD (bytes : List Char) (sep : List Char) : Nat → Nat → List Char
  | 0, _ => []
  | w + 1, i =>
      let b := (bytes.getD i (Char.ofNat 0)).toNat
      hex2ascii ((b >>> 4) % 16) :: hex2ascii (b % 16) ::
        ((if w ≠ 0 then sep else []) ++ emitD bytes sep w (i + 1))

/-- The `number:` tail of `kvprintf` (lines 427-496): spacing, sign,
alternate-form prefix, zero-fill, digits, optional `%b` decoration, and
left-justified trailing spaces.  `width0`/`dwidth0` are C `int` values; each
`while (x-- > 0)` loop emits `max x 0` characters. -/
def emitNumber (num : Nat) (base : Nat) (upper neg ladjust sharp bconv : Bool)
    (width0 dwidth0 : Int) (padc : Char) (q : List Char) : List Char :=
  let p := ksprintn num base upper
  let n : Int := (p.length : Int)
  let tmp : Int :=
    (if sharp ∧ num ≠ 0 then if base = 8 then 1 else if base = 16 then 2 else 0 else 0) +
      (if neg then 1 else 0)
  let dw1 : Int := if ¬ladjust ∧ padc = '0' then width0 - tmp else dwidth0
  let w1 : Int := width0 - (tmp + max dw1 n)
  let dw2 : Int := dw1 - n
  let bpart := if bconv ∧ num ≠ 0 then emitB num q else []
  let w2 : Int := if bpart = [] then w1 else w1 - (bpart.length : Int)
  (if ¬ladjust then List.replicate w1.toNat ' ' else []) ++
    (if neg then ['-'] else []) ++
    (if sharp ∧ num ≠ 0 then
      if base = 8 then ['0'] else if base = 16 then ['0', 'x'] else [] else []) ++
    List.replicate dw2.toNat '0' ++ p ++ bpart ++
    (if ladjust then List.replicate w2.toNat ' ' else [])

/-- Shared signed/unsigned emission: compute `neg` and negate `num` as the
`number:` label does (`if (sign && (int)num < 0)`), then run the tail. -/
def numberOut (st : DirSt) (signFlag : Bool) (num0 : Nat) (base : Nat) (bconv : Bool)
    (q : List Char) : List Char :=
  let neg : Bool := signFlag && decide (s32ofU num0 < 0)
  let num := if neg then u32 (-(s32ofU num0)) else num0
  emitNumber num base st.upper neg st.ladjust st.sharp bconv st.width st.dwidth st.padc q

/-- Processing mode of the `kvprintf` loop: copying literal text (with the
permanent `stop` lockout flag), or inside a `%` directive. -/
inductive KvMode where
  | lit (stop : Bool)
  | dir (st : DirSt)

/-- The characters in the decimal-numeral run of a directive. -/
def digitChars : List Char := ['0', '1', '2', '3', '4', '5', '6', '7', '8', '9']

/-- Every character for which the `reswitch` dispatch of `kvprintf` has a
case; any other conversion character falls to the `default:` echo-and-stop. -/
def kvKnownChars : List Char :=
  ['.', '#', '+', '-', '%', '*', '0', '1', '2', '3', '4', '5', '6', '7', '8', '9',
    'b', 'c', 'D', 'd', 'i', 'h', 'j', 'l', 'n', 'o', 'p', 'r', 's', 't', 'u',
    'X', 'x', 'y', 'z']

/-- One `reswitch` dispatch step on conversion character `c`.  Returns the
characters emitted by this step, the next processing mode, and the remaining
arguments.  The outer membership test mirrors the switch: characters without
a case take the `default:` branch, which re-emits the directive text
accumulated since `%` (`while (percent < fmt) PCHAR(*percent++)`) and sets
the permanent `stop` flag. -/
def kvStep (c : Char) (st0 : DirSt) (args : List Arg) (radix : Nat) :
    List Char × KvMode × List Arg :=
  let st := { st0 with acc := st0.acc ++ [c] }
  if c ∈ kvKnownChars then
    if c = '.' then ([], .dir { st with dot := true }, args)
    else if c = '#' then ([], .dir { st with sharp := true }, args)
    else if c = '+' then ([], .dir { st with sign := true }, args)
    else if c = '-' then ([], .dir { st with ladjust := true }, args)
    else if c = '%' then (['%'], .lit false, args)
    else if c = '*' then
      let (a, args2) := popArg args
      let v := argInt a
      if ¬st.dot then
        if v < 0 then ([], .dir { st with ladjust := ¬st.ladjust, width := -v }, args2)
        else ([], .dir { st with width := v }, args2)
      else ([], .dir { st with dwidth := v }, args2)
    else if c = '0' then
      if ¬st.dot then ([], .dir { st with padc := '0' }, args)
      else ([], .dir { st with nAcc := some 0 }, args)
    else if c ∈ digitChars then ([], .dir { st with nAcc := some ((c.toNat : Int) - 48) }, args)
    else if c = 'b' then
      let st2 := { st with ladjust := true }
      let (a, args2) := popArg args
      let (qa, args3) := popArg args2
      let qs := (argStr qa).getD []
      let base := (qs.headD (Char.ofNat 0)).toNat
      (numberOut st2 false (fetchNosign st2 (argInt a)) base true qs.tail, .lit false, args3)
    else if c = 'c' then
      let (a, args2) := popArg args
      let w : Int := st.width - 1
      let ch := Char.ofNat (u32 (argInt a) % 256)
      ((if ¬st.ladjust then List.replicate w.toNat st.padc else []) ++ [ch] ++
        (if st.ladjust then List.replicate w.toNat st.padc else []), .lit false, args2)
    else if c = 'D' then
      let (a, args2) := popArg args
      let (sa, args3) := popArg args2
      let bytes := (argStr a).getD []
      let sep := (argStr sa).getD []
      let w : Nat := if st.width = (0 : Int) then 16 else st.width.toNat
      (emitD bytes sep w 0, .lit false, args3)
    else if c = 'd' ∨ c = 'i' then
      let (a, args2) := popArg args
      (numberOut st true (u32 (fetchSign st (argInt a))) 10 false [], .lit false, args2)
    else if c = 'h' then
      ([], .dir (if st.hflag then { st with hflag := false, cflag := true }
        else { st with hflag := true }), args)
    else if c = 'j' then ([], .dir { st with jflag := true }, args)
    else if c = 'l' then ([], .dir { st with lflag := true }, args)
    else if c = 'n' then
      let (_, args2) := popArg args
      ([], .lit false, args2)
    else if c = 'o' then
      let (a, args2) := popArg args
      (numberOut st false (fetchNosign st (argInt a)) 8 false [], .lit false, args2)
    else if c = 'p' then
      let (a, args2) := popArg args
      let st2 := { st with sharp := st.width = 0 }
      (numberOut st2 false (argPtr a) 16 false [], .lit false, args2)
    else if c = 'r' then
      let (a, args2) := popArg args
      if st.sign then
        (numberOut st true (u32 (fetchSign st (argInt a))) radix false [], .lit false, args2)
      else
        (numberOut st false (fetchNosign st (argInt a)) radix false [], .lit false, args2)
    else if c = 's' then
      let (a, args2) := popArg args
      let p := (argStr a).getD (("(null)").data)
      let n : Int := if ¬st.dot then (p.length : Int) else min (max st.dwidth 0) (p.length : Int)
      let w := st.width - n
      ((if ¬st.ladjust then List.replicate w.toNat st.padc else []) ++ p.take n.toNat ++
        (if st.ladjust then List.replicate w.toNat st.padc else []), .lit false, args2)
    else if c = 't' then ([], .dir { st with tflag := true }, args)
    else if c = 'u' then
      let (a, args2) := popArg args
      (numberOut st false (fetchNosign st (argInt a)) 10 false [], .lit false, args2)
    else if c = 'X' ∨ c = 'x' then
      let st2 := if c = 'X' then { st with upper := true } else st
      let (a, args2) := popArg args
      (numberOut st2 false (fetchNosign st2 (argInt a)) 16 false [], .lit false, args2)
    else if c = 'y' then
      let (a, args2) := popArg args
      (numberOut st true (u32 (fetchSign st (argInt a))) 16 false [], .lit false, args2)
    else if c = 'z' then ([], .dir { st with zflag := true }, args)
    else (st.acc, .lit true, args)
  else (st.acc, .lit true, args)

/-- The `kvprintf` main loop over the format characters, fuel-based (the fuel
is always one more than the remaining format length, and every step consumes
exactly one character).  List end plays the role of the NUL terminator; an
embedded NUL in literal mode returns as the source does.  Digit runs are
collected character by character in `nAcc` and assigned to `width` or
`dwidth` when a non-digit arrives, as the inner numeral loop does. -/
def kvRun : Nat → List Char → KvMode → List Arg → Nat → List Char
  | 0, _, _, _, _ => []
  | _ + 1, [], .lit _, _, _ => []
  | _ + 1, [], .dir st, _, _ => st.acc
  | fuel + 1, c :: rest, .lit stop, args, r =>
      if c = Char.ofNat 0 then []
      else if c = '%' ∧ ¬stop then kvRun fuel rest (.dir initDir) args r
      else c :: kvRun fuel rest (.lit stop) args r
  | fuel + 1, c :: rest, .dir st, args, r =>
      match st.nAcc with
      | some n =>
          if c ∈ digitChars then
            kvRun fuel rest
              (.dir { st with acc := st.acc ++ [c], nAcc := some (n * 10 + ((c.toNat : Int) - 48)) })
              args r
          else
            let st2 := if st.dot then { st with dwidth := n, nAcc := none }
              else { st with width := n, nAcc := none }
            match kvStep c st2 args r with
            | (out, m2, args2) => out ++ kvRun fuel rest m2 args2 r
      | none =>
          match kvStep c st args r with
          | (out, m2, args2) => out ++ kvRun fuel rest m2 args2 r

/-- The character stream `kvprintf(fmt, func, arg, radix, ap)` feeds to its
sink, together with the NULL-format substitution and the radix clamp at
entry.  The return value of `kvprintf` is the length of this stream. -/
def kvChars (fmt : Option (List Char)) (args : List Arg) (radix : Int) : List Char :=
  let f := fmt.getD (("(fmt null)\n").data)
  let r : Nat := if radix < 2 ∨ radix > 36 then 10 else radix.toNat
  kvRun (f.length + 1) f (.lit false) args r

/-- Sink `snprintf_func` folded over the emitted stream: a character is stored
only while `remain >= 2`, and each store decrements `remain`. -/
def snFold : List Char → Nat → List Char
  | [], _ => []
  | c :: cs, remain => if 2 ≤ remain then c :: snFold cs (remain - 1) else snFold cs remain

/-- Model of `vsnrprintf(str, size, radix, format, ap)`: the bytes written into the
destination buffer (the stored characters, then one NUL when
`info.remain >= 1`), paired with the returned logical count. -/
def vsnrprintfM (size : Nat) (radix : Int) (fmt : Option (List Char)) (args : List Arg) :
    List Char × Nat :=
  let stream := kvChars fmt args radix
  let written := snFold stream size
  (written ++ (if 1 ≤ size - written.length then [Char.ofNat 0] else []), stream.length)

/-- Model of `vsnprintf(str, size, format, ap)`: as `vsnrprintf` with radix 10. -/
def vsnprintfM (size : Nat) (fmt : Option (List Char)) (args : List Arg) : List Char × Nat :=
  vsnrprintfM size 10 fmt args

/-!  Part 2: the `simple_print.c` converters. -/

/-- Digit table `dec_hex_data` from simple_print.c. -/
def dec_hex_data : List Char := ("0123456789abcdef").data

/-- Indexing into `dec_hex_data`. -/
def dchd (n : Nat) : Char := dec_hex_data.getD n '!'

/-- The C-string value of a buffer: its bytes up to the first NUL. -/
def cstr (l : List Char) : List Char := l.takeWhile (fun c => c ≠ Char.ofNat 0)

/-- Model of `append_string(string1, string2, out_string)` from simple_print.c:
concatenation of the two NUL-terminated strings. -/
def append_string (s1 s2 : List Char) : List Char := s1 ++ s2

/-- The descending digit loop of `int_to_string`: index `i` runs from 10 down
to 0 over a 12-byte buffer whose slot 11 already holds the terminator.  The
argument counts the remaining iterations (`steps = i + 1`).  Digits are taken
with C truncated division, so on a negative input the remainder is
non-positive and is negated for the table lookup; the early-out path
realigns the produced suffix to the start of the buffer (`memmove`). -/
def i2sLoop (buf : List Char) (inN : Int) (needNeg neg : Bool) : Nat → List Char
  | 0 => buf
  | k + 1 =>
      let i := k
      if needNeg ∧ inN = 0 ∧ i < 10 then
        i2sLoop (buf.set i '-') (inN.tdiv 10) false neg k
      else if inN = 0 ∧ i < 10 then
        buf.drop (i + 1)
      else
        let d : Nat := if neg then (-(inN.tmod 10)).toNat else (inN.tmod 10).toNat
        i2sLoop (buf.set i (dchd d)) (inN.tdiv 10) needNeg neg k

/-- Model of `int_to_string(in_number, out_string)` from simple_print.c.  The result is
the buffer contents after the loop; its C-string value is the rendered text.
Uninitialized buffer bytes are modelled by a junk character, which never
appears before the terminator of the produced string. -/
def int_to_string (inN : Int) : List Char :=
  let buf := (List.replicate 12 '#').set 11 (Char.ofNat 0)
  i2sLoop buf inN (inN < 0) (inN < 0) 11

/-- The power-of-five accumulation loop of `mantissa_to_string`: `shifter`
runs from 22 down to the 32-bit cutoff at bit 14 (`22 - int_cutoff`), adding
the running power of five for every set mantissa bit and scaling by ten
between steps; the final step breaks before scaling.  The argument is
`shifter - 14`. -/
def mantLoop (m : Nat) : Nat → Nat → Nat → Nat
  | 0, five, temp => if (m >>> 14) % 2 = 1 then temp + five else temp
  | k + 1, five, temp =>
      let t := if (m >>> (14 + (k + 1))) % 2 = 1 then temp + five else temp
      mantLoop m k (five * 5) (t * 10)

/-- The final digit-fill loop of `mantissa_to_string`: positions
`digit_bound` down to 0, leading zeros once the value is exhausted. -/
def mantFillAux (db : Nat) : Nat → Nat → List Char → List Char
  | t, 0, acc => (if t = 0 ∧ 0 < db then '0' else dchd (t % 10)) :: acc
  | t, j + 1, acc =>
      let c := if t = 0 ∧ j + 1 < db then '0' else dchd (t % 10)
      mantFillAux db (t / 10) j (c :: acc)

def mantFill (t : Nat) (digits : Nat) : List Char := mantFillAux (digits - 1) t (digits - 1) []

/-- Model of `mantissa_to_string(mantissa, decimal_point_digits, exponent_add, out_string)`
from simple_print.c, with `FLOAT_ROUNDING` enabled as in the source.  Returns
the digit string and the carry flag written through `exponent_add` (false on
the paths that return before touching it, matching the zero initialisation
performed by the caller). -/
def mantissa_to_string (m : Nat) (digits : Nat) : List Char × Bool :=
  if digits = 0 then ([], false)
  else if m = 0 then (List.replicate digits '0', false)
  else
    let t0 := mantLoop m 8 5 0
    let t1 :=
      if digits = 1 then t0 / 10000000
      else if digits = 2 then t0 / 1000000
      else if digits = 3 then t0 / 100000
      else t0
    if 5 ≤ t1 % 10 then
      let t2 := t1 + (10 - t1 % 10)
      let tenpow := 10 * 10 ^ digits
      if t2 = tenpow then (List.replicate digits '0', true)
      else (mantFill (t2 / 10) digits, false)
    else (mantFill (t1 / 10) digits, false)

/-- Model of `float_to_string(in_float, decimal_point_digits, out_string)` from
simple_print.c, on the bit-field view of the IEEE-754 single value (sign,
biased exponent, mantissa).  The NaN test (`fcmp/eq` self-comparison) holds
exactly when the exponent field is all ones and the mantissa is non-zero;
the zero test (`in_float == 0.0f`) holds for both signed zeros. -/
def float_to_string (sign : Bool) (e : Nat) (m : Nat) (digits : Nat) : List Char :=
  if e = 255 ∧ m ≠ 0 then ("NaN").data
  else if e = 0 ∧ m = 0 then ("0.0").data
  else if sign ∧ e = 255 then ("-Inf").data
  else if e = 255 then ("Inf").data
  else
    let denormal := e = 0
    let ms := mantissa_to_string m digits
    let lead : List Char :=
      if sign then (if denormal ∧ ¬ms.2 then ("-0.").data else ("-1.").data)
      else (if denormal ∧ ¬ms.2 then ("0.").data else ("1.").data)
    let expStr : List Char :=
      if denormal then ("-126").data
      else cstr (int_to_string ((e : Int) - 127 + (if ms.2 then 1 else 0)))
    append_string (append_string (append_string lead ms.1) (("x2^").data)) expStr

/-!  Supporting lemmas. -/

/-- Literal copying: while no `%` (and no terminator) occurs, the main loop
copies characters through unchanged, for either value of `stop`. -/
lemma kvRun_lit_append (l : List Char) (h0 : Char.ofNat 0 ∉ l) (hp : '%' ∉ l) :
    ∀ (rest : List Char) (stop : Bool) (args : List Arg) (r : Nat),
    kvRun ((l ++ rest).length + 1) (l ++ rest) (.lit stop) args r =
      l ++ kvRun (rest.length + 1) rest (.lit stop) args r := by
  induction l with
  | nil => intro rest stop args r; simp
  | cons c cs ih =>
      intro rest stop args r
      have hc0 : c ≠ Char.ofNat 0 := fun h => h0 (h ▸ List.mem_cons_self c cs)
      have hcp : c ≠ '%' := fun h => hp (h ▸ List.mem_cons_self c cs)
      have h0' : Char.ofNat 0 ∉ cs := fun h => h0 (List.mem_cons_of_mem c h)
      have hp' : '%' ∉ cs := fun h => hp (List.mem_cons_of_mem c h)
      simp only [List.cons_append, List.length_cons, kvRun, hc0, hcp, if_false,
        false_and, ite_false]
      have h := ih h0' hp' rest stop args r
      simp only [List.length_append] at h ⊢
      simp [h]

/-- After the permanent lockout, every remaining character (including `%`)
is copied through verbatim. -/
lemma kvRun_lit_stop (l : List Char) (h0 : Char.ofNat 0 ∉ l) :
    ∀ (args : List Arg) (r : Nat), kvRun (l.length + 1) l (.lit true) args r = l := by
  induction l with
  | nil => intro args r; simp [kvRun]
  | cons c cs ih =>
      intro args r
      have hc0 : c ≠ Char.ofNat 0 := fun h => h0 (h ▸ List.mem_cons_self c cs)
      have h0' : Char.ofNat 0 ∉ cs := fun h => h0 (List.mem_cons_of_mem c h)
      simp only [List.length_cons, kvRun, hc0, if_false, not_true, and_false, ite_false]
      rw [ih h0' args r]

/-- The bounded sink stores exactly the first `n` characters when the
starting capacity is `n + 1`. -/
lemma snFold_take (l : List Char) : ∀ n : Nat, snFold l (n + 1) = l.take n := by
  induction l with
  | nil => intro n; simp [snFold]
  | cons c cs ih =>
      intro n
      cases n with
      | zero => simpa [snFold] using ih 0
      | succ m => simp [snFold, Nat.succ_le_succ, ih m]

/-!  Claim theorems. -/

/-- C1: for every format, argument list and capacity `N >= 1`, `vsnprintf`
returns the logical length `M` of the rendered stream independently of `N`,
and when `M > N - 1` the destination holds exactly the first `N - 1` rendered
characters followed by exactly one NUL terminator. -/
theorem claim_C1 (fmt : Option (List Char)) (args : List Arg) (N : Nat) (hN : 1 ≤ N) :
    (vsnprintfM N fmt args).2 = (kvChars fmt args 10).length ∧
    (N - 1 < (kvChars fmt args 10).length →
      (vsnprintfM N fmt args).1 = (kvChars fmt args 10).take (N - 1) ++ [Char.ofNat 0] ∧
      (vsnprintfM N fmt args).1.length = N) := by
  obtain ⟨n, rfl⟩ : ∃ m, N = m + 1 := ⟨N - 1, by omega⟩
  refine ⟨rfl, ?_⟩
  intro hM
  simp only [Nat.add_sub_cancel] at hM ⊢
  have hw : snFold (kvChars fmt args 10) (n + 1) = (kvChars fmt args 10).take n :=
    snFold_take _ n
  have hlen : ((kvChars fmt args 10).take n).length = n := by
    simp [List.length_take]; omega
  constructor
  · simp only [vsnprintfM, vsnrprintfM, hw, hlen]
    have : 1 ≤ n + 1 - n := by omega
    simp [this]
  · simp only [vsnprintfM, vsnrprintfM, hw, hlen]
    have : 1 ≤ n + 1 - n := by omega
    simp [this, hlen]

/-- C1 witness: rendering `hello` into a 3-byte buffer stores `he` plus the
terminator and still returns 5. -/
theorem claim_C1_witness :
    (vsnprintfM 3 (some (("hello").data)) []).1 = 'h' :: 'e' :: [Char.ofNat 0] ∧
    (vsnprintfM 3 (some (("hello").data)) []).2 = 5 := by
  have h := claim_C1 (some (("hello").data)) [] 3 (by decide)
  have h2 := h.2 (by decide)
  exact ⟨h2.1.trans (by decide), h.1.trans (by decide)⟩

/-- C3 counterexample: two subnormal inputs (decimal rounding overflowing on
the first, not on the second) whose rendered exponent text is the same
literal `-126` in both cases; the carry is reflected only in the leading
coefficient digit, so the subnormal exponent text does not take two distinct
values depending on the carry flag. -/
theorem claim_C3_counterexample :
    (mantissa_to_string 8388607 1).2 = true ∧
    (mantissa_to_string 1 1).2 = false ∧
    float_to_string false 0 8388607 1 = ("1.0x2^-126").data ∧
    float_to_string false 0 1 1 = ("0.0x2^-126").data := by
  refine ⟨by decide, by decide, by decide, by decide⟩

/-- C3 (amended): for every subnormal input the rendered exponent text is the
single fixed literal `-126`, independent of the carry flag; the carry flag
instead switches the leading coefficient digit from `0.` to `1.`. -/
theorem claim_C3_amended (s : Bool) (m d : Nat) (h0 : 0 < m) :
    float_to_string s 0 m d =
      (if s then ['-'] else []) ++
        (if (mantissa_to_string m d).2 then '1' :: '.' :: [] else '0' :: '.' :: []) ++
        (mantissa_to_string m d).1 ++ ("x2^").data ++ ("-126").data := by
  have hm : m ≠ 0 := Nat.pos_iff_ne_zero.mp h0
  cases s <;> cases hc : (mantissa_to_string m d).2 <;>
    simp [float_to_string, append_string, hm, hc]

/-- C3 witness: the amended statement at the all-ones subnormal mantissa with
one decimal digit. -/
theorem claim_C3_witness :
    0 < 8388607 ∧ float_to_string false 0 8388607 1 = ("1.0x2^-126").data := by
  refine ⟨by decide, (claim_C3_amended false 8388607 1 (by decide)).trans (by decide)⟩

/-- C4: `int_to_string` renders the minimum 32-bit value exactly, extracting
digits from the still-negative value with truncated division so the value is
never negated. -/
theorem claim_C4 : cstr (int_to_string (-2147483648)) = ("-2147483648").data := by decide

/-- C5: for every decimal-digit count in 1..3, `float_to_string` classifies
NaN, zero (either sign), negative infinity and positive infinity in priority
order, rendering the corresponding literals. -/
theorem claim_C5 (d : Nat) (_h1 : 1 ≤ d) (_h3 : d ≤ 3) (s : Bool) (e m : Nat)
    (he : e < 256) (hm : m < 8388608) :
    (e = 255 ∧ m ≠ 0 → float_to_string s e m d = ("NaN").data) ∧
    (e = 0 ∧ m = 0 → float_to_string s e m d = ("0.0").data) ∧
    (s = true ∧ e = 255 ∧ m = 0 → float_to_string s e m d = ("-Inf").data) ∧
    (s = false ∧ e = 255 ∧ m = 0 → float_to_string s e m d = ("Inf").data) := by
  refine ⟨?_, ?_, ?_, ?_⟩
  · rintro ⟨rfl, hm0⟩
    simp [float_to_string, hm0]
  · rintro ⟨rfl, rfl⟩
    simp [float_to_string]
  · rintro ⟨rfl, rfl, rfl⟩
    simp [float_to_string]
  · rintro ⟨rfl, rfl, rfl⟩
    simp [float_to_string]

/-- C5 witness: the four classifications at concrete bit patterns. -/
theorem claim_C5_witness :
    float_to_string true 255 1 1 = ("NaN").data ∧
    float_to_string false 0 0 2 = ("0.0").data ∧
    float_to_string true 255 0 3 = ("-Inf").data ∧
    float_to_string false 255 0 1 = ("Inf").data := by
  refine ⟨(claim_C5 1 (by decide) (by decide) true 255 1 (by decide) (by decide)).1
      ⟨rfl, by decide⟩,
    (claim_C5 2 (by decide) (by decide) false 0 0 (by decide) (by decide)).2.1 ⟨rfl, rfl⟩,
    (claim_C5 3 (by decide) (by decide) true 255 0 (by decide) (by decide)).2.2.1
      ⟨rfl, rfl, rfl⟩,
    (claim_C5 1 (by decide) (by decide) false 255 0 (by decide) (by decide)).2.2.2
      ⟨rfl, rfl, rfl⟩⟩

/-- C6: `float_to_string` on 5.0 (bits: sign 0, exponent 129, mantissa
2omitted) with 3 decimal digits yields coefficient 1.250 and binary exponent
2, whose reconstruction is within 0.002 of 5.0. -/
theorem claim_C6 :
    float_to_string false 129 2097152 3 = ("1.250x2^2").data ∧
    |(1250 : ℚ) / 1000 * 2 ^ 2 - 5| ≤ 2 / 1000 := by
  refine ⟨by decide, by norm_num⟩

/-- C8: the bit-decode directive on value 3 with base byte 8 and groups
(bit 2, BITTWO), (bit 1, BITONE) renders the value in octal followed by the
angle-bracketed comma-joined names of the set bits. -/
theorem claim_C8 :
    kvChars (some (("%b").data))
      [Arg.int 3,
        Arg.str (some (Char.ofNat 8 :: Char.ofNat 2 ::
          ("BITTWO").data ++ Char.ofNat 1 :: ("BITONE").data))] 10 =
      ("3<BITTWO,BITONE>").data := by decide

/-- C9 counterexample: with a NULL format pointer `kvprintf` renders the
11-character text `(fmt null)` plus newline and returns 11, not 12. -/
theorem claim_C9_counterexample :
    (kvChars none [] 10).length = 11 ∧ (kvChars none [] 10).length ≠ 12 := by
  refine ⟨by decide, by decide⟩

/-- C9 (amended): for every sink, argument list and radix, a NULL format
pointer renders the literal text `(fmt null)` plus newline and returns its
length, 11. -/
theorem claim_C9_amended (args : List Arg) (radix : Int) :
    kvChars none args radix = ("(fmt null)\n").data ∧
    (kvChars none args radix).length = 11 := by
  have h0 : Char.ofNat 0 ∉ ("(fmt null)\n").data := by decide
  have hp : '%' ∉ ("(fmt null)\n").data := by decide
  have key : kvChars none args radix = ("(fmt null)\n").data := by
    show kvRun ((("(fmt null)\n").data).length + 1) (("(fmt null)\n").data)
      (.lit false) args _ = ("(fmt null)\n").data
    have := kvRun_lit_append (("(fmt null)\n").data) h0 hp []
      false args (if radix < 2 ∨ radix > 36 then 10 else radix.toNat)
    simpa using this
  exact ⟨key, by rw [key]; decide⟩

/-- Every digit the conversion loop emits for the four supported bases is a
table character below index 16, never the placeholder. -/
lemma kspDigits_no_placeholder (base : Nat)
    (hb : base = 2 ∨ base = 8 ∨ base = 10 ∨ base = 16) :
    ∀ (fuel num : Nat), '?' ∉ kspDigits base fuel num := by
  have htab : ∀ d : Nat, d < 16 → hex2ascii d ≠ '?' := by decide
  intro fuel
  induction fuel with
  | zero => intro num; simp [kspDigits]
  | succ f ih =>
      intro num h
      simp only [kspDigits, List.mem_append, List.mem_singleton] at h
      rcases h with h | h
      · by_cases h0 : num / base = 0
        · simp [h0] at h
        · simp only [h0, if_false, ite_false] at h
          exact ih _ h
      · have hlt : num % base < 16 := by
          rcases hb with rfl | rfl | rfl | rfl <;> omega
        exact htab _ hlt h.symm

/-- Renderer `ksprintn` at a supported base never produces the placeholder. -/
lemma ksprintn_no_placeholder (num : Nat) (base : Nat)
    (hb : base = 2 ∨ base = 8 ∨ base = 10 ∨ base = 16) :
    '?' ∉ ksprintn num base false := by
  unfold ksprintn
  have hcond : (base = 10 ∨ base = 16 ∨ base = 8 ∨ base = 2) := by tauto
  simp only [hcond, if_true, Bool.false_eq_true, ite_false]
  exact kspDigits_no_placeholder base hb 33 num

/-- The `number:` tail with no width, no precision, no flags emits exactly
the digit string. -/
lemma emitNumber_plain (num : Nat) (base : Nat) :
    emitNumber num base false false false false false 0 0 ' ' [] = ksprintn num base false := by
  unfold emitNumber
  simp

/-- The `number:` tail for a signed decimal with the zero-pad character, not
left-justified, no alternate form, and width exceeding the sign-plus-digit
count: the sign comes first, then the zero fill, then the digits, and the
output is exactly the requested width.  The incoming precision is irrelevant
because the zero-pad branch overwrites it with `width - tmp`. -/
lemma emitNumber_zeropad (num : Nat) (neg : Bool) (w dw : Int)
    (hw : (if neg then 1 else 0) + ((ksprintn num 10 false).length : Int) < w) :
    emitNumber num 10 false neg false false false w dw '0' [] =
      (if neg then ['-'] else []) ++
        List.replicate (w - (if neg then 1 else 0) -
          ((ksprintn num 10 false).length : Int)).toNat '0' ++
        ksprintn num 10 false ∧
    (emitNumber num 10 false neg false false false w dw '0' []).length = w.toNat := by
  unfold emitNumber
  cases neg with
  | false =>
      simp only [Bool.false_eq_true, if_false] at hw
      simp
      have hle : ((ksprintn num 10 false).length : Int) ≤ w := by omega
      rw [sup_eq_left.mpr hle]
      omega
  | true =>
      simp only [if_true] at hw
      simp
      have hle : ((ksprintn num 10 false).length : Int) ≤ w - 1 := by omega
      rw [sup_eq_left.mpr hle]
      omega

/-- C7: every signed decimal directive with the zero-pad flag, not
left-justified, and requested width greater than the sign-plus-digit count
renders exactly `width` characters: the sign (for a negative value) first,
then the zero fill, then the digits.  `u32 (strunc 32 v)` is the value the
`%d` dispatch hands to the `number:` tail for an `int` argument `v`; the
incoming precision `dw` is arbitrary since the zero-pad branch overwrites
it. -/
theorem claim_C7 (v w dw : Int) (hlo : -2147483648 ≤ v) (hhi : v < 2147483648)
    (hw : (if v < 0 then 1 else 0) +
      ((ksprintn (if v < 0 then (-v).toNat else v.toNat) 10 false).length : Int) < w) :
    numberOut { initDir with padc := '0', width := w, dwidth := dw } true
        (u32 (strunc 32 v)) 10 false [] =
      (if v < 0 then ['-'] else []) ++
        List.replicate (w - (if v < 0 then 1 else 0) -
          ((ksprintn (if v < 0 then (-v).toNat else v.toNat) 10 false).length : Int)).toNat '0' ++
        ksprintn (if v < 0 then (-v).toNat else v.toNat) 10 false ∧
    (numberOut { initDir with padc := '0', width := w, dwidth := dw } true
        (u32 (strunc 32 v)) 10 false []).length = w.toNat := by
  have hs : strunc 32 v = v := by unfold strunc; omega
  have hval : s32ofU (u32 v) = v := by
    unfold s32ofU u32
    split <;> omega
  rw [hs]
  by_cases hv : v < 0
  · have hneg3 : u32 (-v) = (-v).toNat := by unfold u32; omega
    have hgoal : numberOut { initDir with padc := '0', width := w, dwidth := dw } true
        (u32 v) 10 false [] =
        emitNumber ((-v).toNat) 10 false true false false false w dw '0' [] := by
      simp [numberOut, hval, hv, hneg3, initDir]
    rw [hgoal]
    have hkey := emitNumber_zeropad ((-v).toNat) true w dw (by simpa [hv] using hw)
    simpa [hv] using hkey
  · have hpos : u32 v = v.toNat := by unfold u32; omega
    have hval2 : s32ofU v.toNat = v := by unfold s32ofU; omega
    have hgoal : numberOut { initDir with padc := '0', width := w, dwidth := dw } true
        (u32 v) 10 false [] =
        emitNumber (v.toNat) 10 false false false false false w dw '0' [] := by
      simp [numberOut, hval, hv, hpos, hval2, initDir]
    rw [hgoal]
    have hkey := emitNumber_zeropad (v.toNat) false w dw (by simpa [hv] using hw)
    simpa [hv] using hkey

/-- C7 witness: rendering -42 with width 7, zero padding, not left-justified
gives the sign, four zeros, then the digits. -/
theorem claim_C7_witness :
    numberOut { initDir with padc := '0', width := 7, dwidth := 0 } true
        (u32 (strunc 32 (-42))) 10 false [] =
      '-' :: '0' :: '0' :: '0' :: '0' :: '4' :: '2' :: [] := by
  have h := claim_C7 (-42) 7 0 (by decide) (by decide) (by decide)
  exact h.1.trans (by decide)

/-- A `%r` directive reduces to the digit renderer at the clamped radix. -/
lemma kvChars_r (v : Int) (radix : Int) :
    kvChars (some ['%', 'r']) [Arg.int v] radix =
      ksprintn (u32 v) (if radix < 2 ∨ radix > 36 then 10 else radix.toNat) false := by
  show kvRun 3 ['%', 'r'] (.lit false) [Arg.int v]
      (if radix < 2 ∨ radix > 36 then 10 else radix.toNat) =
    ksprintn (u32 v) (if radix < 2 ∨ radix > 36 then 10 else radix.toNat) false
  simp [kvRun, kvStep, kvKnownChars, digitChars, initDir, popArg, argInt, fetchNosign,
    numberOut, emitNumber_plain]

/-- C10: a radix below 2 or above 36 is silently replaced by 10 before any
directive is processed, so a `%r` directive renders the value in decimal
(never the placeholder), and `vsnrprintf` stores that decimal text; the
placeholder is produced exactly for clamped bases inside 2..36 outside
{2, 8, 10, 16}, while the four supported bases never produce it. -/
theorem claim_C10 (radix v : Int) :
    ((radix < 2 ∨ radix > 36) →
      kvChars (some ['%', 'r']) [Arg.int v] radix = ksprintn (u32 v) 10 false ∧
      '?' ∉ kvChars (some ['%', 'r']) [Arg.int v] radix ∧
      (vsnrprintfM ((ksprintn (u32 v) 10 false).length + 1) radix
          (some ['%', 'r']) [Arg.int v]).1 =
        ksprintn (u32 v) 10 false ++ [Char.ofNat 0]) ∧
    ((2 ≤ radix ∧ radix ≤ 36 ∧ radix ≠ 2 ∧ radix ≠ 8 ∧ radix ≠ 10 ∧ radix ≠ 16) →
      kvChars (some ['%', 'r']) [Arg.int v] radix = ['?']) ∧
    ((radix = 2 ∨ radix = 8 ∨ radix = 10 ∨ radix = 16) →
      '?' ∉ kvChars (some ['%', 'r']) [Arg.int v] radix) := by
  refine ⟨?_, ?_, ?_⟩
  · intro hcl
    have hkv : kvChars (some ['%', 'r']) [Arg.int v] radix = ksprintn (u32 v) 10 false := by
      rw [kvChars_r, if_pos hcl]
    refine ⟨hkv, ?_, ?_⟩
    · rw [hkv]
      exact ksprintn_no_placeholder _ 10 (Or.inr (Or.inr (Or.inl rfl)))
    · simp only [vsnrprintfM, hkv]
      rw [snFold_take, List.take_length]
      simp
  · intro hcl
    have hncl : ¬(radix < 2 ∨ radix > 36) := by omega
    rw [kvChars_r, if_neg hncl]
    have hbase : ¬(radix.toNat = 10 ∨ radix.toNat = 16 ∨ radix.toNat = 8 ∨ radix.toNat = 2) := by
      omega
    simp [ksprintn, hbase]
  · intro hcl
    have hncl : ¬(radix < 2 ∨ radix > 36) := by omega
    rw [kvChars_r, if_neg hncl]
    exact ksprintn_no_placeholder _ radix.toNat (by omega)

/-- C10 witness: radix 37 renders 123 in decimal, radix 3 renders the
placeholder, radix 16 contains no placeholder. -/
theorem claim_C10_witness :
    kvChars (some ['%', 'r']) [Arg.int 123] 37 = '1' :: '2' :: '3' :: [] ∧
    kvChars (some ['%', 'r']) [Arg.int 123] 3 = ['?'] ∧
    '?' ∉ kvChars (some ['%', 'r']) [Arg.int 123] 16 := by
  refine ⟨((claim_C10 37 123).1 (by decide)).1.trans (by decide),
    (claim_C10 3 123).2.1 (by decide),
    (claim_C10 16 123).2.2 (by decide)⟩

/-- Characters (flags, numerals, length modifiers) that keep the `reswitch`
loop inside the same directive without consuming call arguments. -/
def kvFlagChars : List Char :=
  ['.', '#', '+', '-', '0', '1', '2', '3', '4', '5', '6', '7', '8', '9',
    'h', 'j', 'l', 't', 'z']

lemma digit_mem_known : ∀ y ∈ digitChars, y ∈ kvKnownChars := by decide

/-- Walking a run of flag characters followed by an unsupported conversion
character: the directive text accumulated since `%` is echoed verbatim, the
lockout is set and the remaining characters are copied through unchanged,
from any directive state. -/
lemma kvDirWalk (c : Char) (hc : c ∉ kvKnownChars) (rest : List Char)
    (h0 : Char.ofNat 0 ∉ rest) (args : List Arg) (r : Nat) :
    ∀ (mid : List Char), (∀ x ∈ mid, x ∈ kvFlagChars) → ∀ st : DirSt,
      kvRun ((mid ++ c :: rest).length + 1) (mid ++ c :: rest) (.dir st) args r =
        st.acc ++ mid ++ c :: rest := by
  have hcd : c ∉ digitChars := fun h => hc (digit_mem_known c h)
  intro mid
  induction mid with
  | nil =>
      intro _ st
      simp only [List.nil_append, List.length_cons]
      cases hn : st.nAcc with
      | none =>
          simp only [kvRun, hn]
          simp only [kvStep, if_neg hc]
          rw [kvRun_lit_stop rest h0]
          simp
      | some n =>
          simp only [kvRun, hn, if_neg hcd]
          by_cases hd : st.dot <;>
            · simp only [hd, kvStep, if_neg hc, ite_true, ite_false]
              rw [kvRun_lit_stop rest h0]
              simp
  | cons x mid ih =>
      intro hmem st
      have hx := hmem x (List.mem_cons_self x mid)
      have hmid : ∀ y ∈ mid, y ∈ kvFlagChars := fun y hy => hmem y (List.mem_cons_of_mem x hy)
      have ih2 := ih hmid
      simp only [List.length_append, List.length_cons] at ih2
      simp only [List.cons_append, List.length_cons]
      fin_cases hx <;>
        (cases hn : st.nAcc <;> by_cases hd : st.dot <;> by_cases hh : st.hflag <;>
          · simp only [kvRun, hn]
            simp [kvStep, hd, hh, kvKnownChars, digitChars]
            refine (ih2 _).trans ?_
            simp)

/-- C2: for every format string consisting of literal text, then a directive
whose flag/width/length run is followed by an unsupported conversion
character, then an arbitrary remainder: the leading text renders normally,
the whole `%...` sequence is echoed verbatim including the offending
character, and everything after it, later `%` directives included, is copied
through unchanged, with no further directive interpreted. -/
theorem claim_C2 (pre mid rest : List Char) (c : Char) (args : List Arg) (radix : Int)
    (hpre0 : Char.ofNat 0 ∉ pre) (hprep : '%' ∉ pre)
    (hmid : ∀ x ∈ mid, x ∈ kvFlagChars)
    (hc : c ∉ kvKnownChars) (_hc0 : c ≠ Char.ofNat 0)
    (hrest : Char.ofNat 0 ∉ rest) :
    kvChars (some (pre ++ '%' :: (mid ++ c :: rest))) args radix =
      pre ++ '%' :: (mid ++ c :: rest) := by
  unfold kvChars
  simp only [Option.getD_some]
  rw [kvRun_lit_append pre hpre0 hprep]
  congr 1
  simp only [List.length_cons, kvRun]
  have hwalk := kvDirWalk c hc rest hrest args
    (if radix < 2 ∨ radix > 36 then 10 else radix.toNat) mid hmid initDir
  simp only [hwalk]
  simp [initDir]

/-- C2 witness: literal text, a `%-05q` directive with unknown conversion
`q`, and a later `%d` directive, all echoed verbatim with the argument left
unconsumed. -/
theorem claim_C2_witness :
    kvChars (some (("ab%-05q%d!").data)) [Arg.int 7] 10 = ("ab%-05q%d!").data := by
  have hsplit : ("ab%-05q%d!").data =
      ("ab").data ++ '%' :: (['-', '0', '5'] ++ 'q' :: ("%d!").data) := by decide
  rw [hsplit]
  exact claim_C2 (("ab").data) ['-', '0', '5'] (("%d!").data) 'q' [Arg.int 7] 10
    (by decide) (by decide) (by decide) (by decide) (by decide) (by decide)

end DreamHAL
